import Mathlib

/-!
Verification of the word-hunt similarity ranking engine.

The definitions below are a shallow embedding of the Python sources:
  * `backend/game.py` (class `WordGameEngine`: `_read_similarity_row_at`,
    `_describe_hotness`, `set_target`, `get_hint`, `make_guess`),
  * `backend/utils/loaders.py` (`read_similarity_row`),
  * `backend/utils/scoring.py` (`compute_percentile`, `describe_hotness`),
  * `backend/utils/hint.py` and `backend/actions/similar_word.py`
    (`_choose_hint_index`),
  * `backend/actions/similar_word.py` (`get_similar_word`).

Modelling conventions:
  * Python `float` scores are modelled as `ℚ`; the decimal literals occurring
    in the data and in the threshold tables are exact in `ℚ`.
  * File access is flattened: the offset index `word -> byte offset` composed
    with `seek`-and-read is modelled as an association list `word -> line`.
  * Randomness (`random.choice`, `random.randint`) is made an explicit
    argument: the sampled value is passed in, and theorems quantify over the
    legal range of that value.
  * Python `dict` lookup semantics (later insertions overwrite earlier ones)
    are modelled by `buildPosMap`, which returns the index of the last
    occurrence of a key, exactly like the comprehension
    `{w: idx for idx, (w, _) in enumerate(lst)}`.
-/

namespace WordHunt

/-! ## Character-level string helpers (Python `str` operations) -/

/-- Python `str.strip()`: drop whitespace at both ends. -/
def stripChars (cs : List Char) : List Char :=
  ((cs.dropWhile Char.isWhitespace).reverse.dropWhile Char.isWhitespace).reverse

/-- Python `str.strip().lower()`, the guess/target normalisation used
throughout `game.py`. -/
def normalizeWord (s : String) : String :=
  String.mk ((stripChars s.data).map Char.toLower)

/-- Split at the first occurrence of `c`; `none` when `c` does not occur.
Models Python `s.split(sep, 1)` yielding two (or one) fields. -/
def breakAtFirstChar (c : Char) : List Char → Option (List Char × List Char)
  | [] => none
  | x :: xs =>
    if x = c then some ([], xs)
    else
      match breakAtFirstChar c xs with
      | none => none
      | some (a, b) => some (x :: a, b)

/-- Helper for `splitOnChar`. -/
def splitOnCharAux (c : Char) : List Char → List Char → List (List Char)
  | [], acc => [acc.reverse]
  | x :: xs, acc =>
    if x = c then acc.reverse :: splitOnCharAux c xs []
    else splitOnCharAux c xs (x :: acc)

/-- Python `s.split(sep)` for a one-character separator. -/
def splitOnChar (c : Char) (cs : List Char) : List (List Char) :=
  splitOnCharAux c cs []

/-- Python `s.rstrip(chr(10))`: drop every trailing newline. -/
def rstripNewlines (cs : List Char) : List Char :=
  (cs.reverse.dropWhile (fun c => c = '\n')).reverse

/-! ## Decimal parsing (Python `float(...)` on score tokens)

`parseFloatQ` models `float(sc)` for the finite decimal/scientific notation
grammar (`[+-]digits[.digits][e[+-]digits]`, surrounding whitespace allowed);
exotic inputs Python also accepts (`inf`, `nan`, digit underscores) do not
occur in similarity data and are rejected here. -/

/-- Numeric value of a digit string. -/
def digitsVal (cs : List Char) : ℕ :=
  cs.foldl (fun n c => 10 * n + (c.toNat - 48)) 0

/-- Parse a non-empty all-digit string. -/
def parseNatDigits (cs : List Char) : Option ℤ :=
  if cs ≠ [] ∧ cs.all Char.isDigit then some (digitsVal cs) else none

/-- Parse an optionally signed digit string. -/
def parseSignedInt (cs : List Char) : Option ℤ :=
  match cs with
  | '+' :: r => parseNatDigits r
  | '-' :: r => (parseNatDigits r).map (fun n => -n)
  | r => parseNatDigits r

/-- Parse the optional exponent suffix of a float literal. -/
def parseExponent (cs : List Char) : Option ℤ :=
  match cs with
  | [] => some 0
  | 'e' :: r => parseSignedInt r
  | 'E' :: r => parseSignedInt r
  | _ => none

/-- Model of Python `float(s)`, returning the exact rational value, or `none`
where Python raises `ValueError`. -/
def parseFloatQ (s : List Char) : Option ℚ :=
  let cs := stripChars s
  let sgn : ℚ := match cs with
    | '-' :: _ => -1
    | _ => 1
  let cs1 : List Char := match cs with
    | '+' :: r => r
    | '-' :: r => r
    | r => r
  let ip := cs1.takeWhile Char.isDigit
  let cs2 := cs1.dropWhile Char.isDigit
  let fp : List Char := match cs2 with
    | '.' :: r => r.takeWhile Char.isDigit
    | _ => []
  let cs3 : List Char := match cs2 with
    | '.' :: r => r.dropWhile Char.isDigit
    | _ => cs2
  if ip = [] ∧ fp = [] then none
  else
    match parseExponent cs3 with
    | none => none
    | some e =>
      some (sgn * ((digitsVal ip : ℚ) + (digitsVal fp : ℚ) / (10 : ℚ) ^ fp.length)
        * (10 : ℚ) ^ e)

/-! ## Similarity row parsing (`read_similarity_row` in `loaders.py`,
`_read_similarity_row_at` in `game.py`; both bodies are identical) -/

/-- One `other:score` token: `other, sc = p.rsplit(chr(58), 1)` followed by
`float(sc)`; `none` models the `ValueError` branch (token skipped). -/
def parseToken (cs : List Char) : Option (String × ℚ) :=
  match breakAtFirstChar ':' cs.reverse with
  | none => none
  | some (scRev, otherRev) =>
    match parseFloatQ scRev.reverse with
    | none => none
    | some q => some (String.mk otherRev.reverse, q)

/-- Character-level body of `read_similarity_row`:
`line.rstrip(chr(10)).split(chr(9), 1)`, then if there is no second field or
it is empty return `[]`, otherwise split the field on commas and keep the
tokens that parse. -/
def readSimilarityRowChars (cs : List Char) : List (String × ℚ) :=
  match breakAtFirstChar '\t' (rstripNewlines cs) with
  | none => []
  | some (_, right) =>
    if right = [] then []
    else (splitOnChar ',' right).filterMap parseToken

/-- `read_similarity_row`, applied to the text line found at the word's
indexed offset (the file `seek`/`readline` step is flattened away). -/
def readSimilarityRow (line : String) : List (String × ℚ) :=
  readSimilarityRowChars line.data

/-! ## Scoring (`compute_percentile` in `scoring.py`; the same formula is
inlined in `make_guess` and `get_hint` in `game.py`) -/

/-- `100.0 * (1.0 - (rank - 1) / max(1, total - 1))`. -/
def computePercentile (rank total : ℕ) : ℚ :=
  100 * (1 - ((rank : ℚ) - 1) / ((max 1 (total - 1) : ℕ) : ℚ))

/-- `WordGameEngine._describe_hotness` in `game.py`: similarity-threshold
banding, evaluated top-down, first match wins. -/
def describeHotness (s : ℚ) : String :=
  if s ≥ 0.99 then "Correct"
  else if s ≥ 0.90 then "Boiling"
  else if s ≥ 0.75 then "Very hot"
  else if s ≥ 0.60 then "Hot"
  else if s ≥ 0.45 then "Warm"
  else if s ≥ 0.30 then "Cool"
  else if s ≥ 0.15 then "Cold"
  else "Freezing"

/-- `describe_hotness` in `utils/scoring.py`: the divergent percentile-banded
variant, used only by `actions/similar_word.py`. -/
def describeHotnessPercentile (rank total : ℕ) : String :=
  if rank = 1 then "Correct"
  else
    let percentile := computePercentile rank total
    if percentile ≥ 99 then "Boiling"
    else if percentile ≥ 95 then "Very hot"
    else if percentile ≥ 90 then "Hot"
    else if percentile ≥ 75 then "Warm"
    else if percentile ≥ 50 then "Cool"
    else if percentile ≥ 25 then "Cold"
    else "Freezing"

/-! ## Engine state and guess scoring (`WordGameEngine` in `backend/game.py`) -/

/-- The result record built by `make_guess` (`base_response` plus the
branch-specific `update`s). -/
structure GuessResult where
  guess : String
  valid : Bool
  error : Option String
  is_correct : Option Bool
  rank : Option ℕ
  total : Option ℕ
  similarity : Option ℚ
  percentile : Option ℚ
  hotness : Option String
deriving DecidableEq

/-- The record returned by `get_hint` / `get_similar_word`. -/
structure HintInfo where
  word : String
  rank : ℕ
  total : ℕ
  similarity : ℚ
  percentile : ℚ
  hotness : String
deriving DecidableEq

/-- The engine's instance fields. `offsets` flattens the Python pair
(offset index, similarity file) into one map `word -> row line`:
`offsets[w]` composed with `_read_similarity_row_at` seek/readline always
yields exactly the line whose offset is stored for `w`. -/
structure WordGameEngine where
  vocab_set : List String
  offsets : List (String × String)
  target_word : String
  target_similarity_list : List (String × ℚ)
  target_pos_map : String → Option ℕ
  target_total : ℕ

/-- `base_response` with `error` filled in: the shape of every invalid
outcome of `make_guess`. -/
def invalidResult (gn : String) (msg : String) : GuessResult :=
  { guess := gn, valid := false, error := some msg, is_correct := none, rank := none,
    total := none, similarity := none, percentile := none, hotness := none }

/-- The exact-match branch of `make_guess`: `sim = 1.0`, `rank = 1`,
`percentile = 100.0`, `hotness = _describe_hotness(1.0)`. -/
def correctResult (gn : String) (total : ℕ) : GuessResult :=
  { guess := gn, valid := true, error := none, is_correct := some true, rank := some 1,
    total := some total, similarity := some 1, percentile := some 100,
    hotness := some (describeHotness 1) }

/-- The valid non-target branch of `make_guess`: rank, stored score,
inlined percentile formula, similarity-threshold hotness. -/
def rankedResult (gn : String) (rank : ℕ) (sim : ℚ) (total : ℕ) : GuessResult :=
  { guess := gn, valid := true, error := none, is_correct := some false, rank := some rank,
    total := some total, similarity := some sim,
    percentile := some (computePercentile rank total),
    hotness := some (describeHotness sim) }

/-- The fallback linear scan in `make_guess`: first `j` with
`target_similarity_list[j][0] == guess`, together with the stored score. -/
def scanForWord : List (String × ℚ) → String → ℕ → Option (ℕ × ℚ)
  | [], _, _ => none
  | p :: rest, w, j => if p.1 = w then some (j, p.2) else scanForWord rest w (j + 1)

/-- Helper for `buildPosMap`; `i` is the index of the head of the remaining
list. The right-hand recursion is tried first, so the index of the *last*
occurrence of a word wins, matching Python dict overwrite semantics. -/
def buildPosMapAux (i : ℕ) : List (String × ℚ) → String → Option ℕ
  | [], _ => none
  | p :: rest, w =>
    match buildPosMapAux (i + 1) rest w with
    | some j => some j
    | none => if p.1 = w then some i else none

/-- `self.target_pos_map = {w: idx for idx, (w, _) in enumerate(...)}`:
word -> 0-based index of its last occurrence in the target row. -/
def buildPosMap (lst : List (String × ℚ)) : String → Option ℕ :=
  buildPosMapAux 0 lst

/-- Body of `make_guess` after normalisation (`guess_norm` is already
trimmed and lowercased). -/
def makeGuessNorm (st : WordGameEngine) (gn : String) : GuessResult :=
  if gn = "" then invalidResult gn "Empty guess."
  else if st.vocab_set.contains gn = false then
    invalidResult gn "Word is not in the allowed vocabulary."
  else if (st.offsets.lookup gn).isNone then
    invalidResult gn "Word is missing from similarity data."
  else if gn = st.target_word then correctResult gn st.target_total
  else
    match st.target_pos_map gn with
    | some idx =>
      rankedResult gn (idx + 1) (st.target_similarity_list.getD idx ("", 0)).2 st.target_total
    | none =>
      match scanForWord st.target_similarity_list gn 0 with
      | some (j, sc) => rankedResult gn (j + 1) sc st.target_total
      | none => invalidResult gn "Internal error: guess not found in target similarity list."

/-- `WordGameEngine.make_guess`: normalise, then score. Total by
construction: every branch returns a result record, never an exception. -/
def makeGuess (st : WordGameEngine) (guess_word : String) : GuessResult :=
  makeGuessNorm st (normalizeWord guess_word)

/-- `make_guess` as a state transformer: the method reads the engine fields
and writes none of them, so the post-state is the pre-state. -/
def makeGuessS (st : WordGameEngine) (guess_word : String) : GuessResult × WordGameEngine :=
  (makeGuess st guess_word, st)

/-- `WordGameEngine.get_hint`: a random word among the `k` most similar,
`k = min(max(top_n, 1), n_others)`. `pick` is the injected value of
`random.randint(0, k - 1)`; it is clamped into that range, which is the
identity on every value `randint` can actually return. -/
def getHint (st : WordGameEngine) (pick : ℕ) (top_n : ℕ) : Except String HintInfo :=
  if st.target_similarity_list.isEmpty then
    .error "Target similarity list is empty; engine not initialized properly."
  else
    let k := min (max top_n 1) st.target_similarity_list.length
    let idx := min pick (k - 1)
    let ws := st.target_similarity_list.getD idx ("", 0)
    let rank := idx + 1
    .ok { word := ws.1, rank := rank, total := st.target_total,
          similarity := ws.2,
          percentile := computePercentile rank st.target_total,
          hotness := describeHotness ws.2 }

/-- `get_hint` as a state transformer (no engine field is written). -/
def getHintS (st : WordGameEngine) (pick : ℕ) (top_n : ℕ) :
    Except String HintInfo × WordGameEngine :=
  (getHint st pick top_n, st)

/-- Tail of `set_target` once the target word is chosen: materialise the
row found at the chosen word's offset and derive the lookup structures. -/
def materializeTarget (vocab : List String) (index : List (String × String))
    (chosen : String) (line : String) : WordGameEngine :=
  let lst := readSimilarityRow line
  { vocab_set := vocab, offsets := index, target_word := chosen,
    target_similarity_list := lst, target_pos_map := buildPosMap lst,
    target_total := lst.length + 1 }

/-- `set_target` with an explicit requested word: normalise, raise
`ValueError` when the word is not indexed, otherwise deterministic. -/
def setTargetRequested (vocab : List String) (index : List (String × String))
    (target_word : String) : Except String WordGameEngine :=
  let tw := normalizeWord target_word
  match index.lookup tw with
  | none => .error ("Requested target not in similarity data: " ++ tw)
  | some line => .ok (materializeTarget vocab index tw line)

/-- `set_target` with no requested word: `chosen = random.choice(available)`
for `available = list(self.offsets.keys())`; `choice` is the injected
sampled position. There is no retry loop and no emptiness check on the row:
the single sampled candidate is always accepted. -/
def setTargetRandom (vocab : List String) (index : List (String × String))
    (choice : ℕ) : WordGameEngine :=
  let chosen := (index.getD choice ("", "")).1
  let line := (index.lookup chosen).getD ""
  materializeTarget vocab index chosen line

/-! ## Hint strategist (`backend/utils/hint.py` and its duplicate in
`backend/actions/similar_word.py`) -/

/-- The `HintStrength` literal type. It is imported by `utils/hint.py` from
`backend.schemas`, which does not define it; `actions/similar_word.py`
declares the same two-valued literal locally. -/
inductive HintStrength where
  | soft
  | strong
deriving DecidableEq

/-- Rank band (`low_rank`, `high_rank`) resolved by `_choose_hint_index` in
`backend/utils/hint.py`; the function then returns
`random.randint(low_rank - 1, high_rank - 1)`. -/
def chooseHintBand (n_others : ℕ) (best_rank_overall : Option ℕ)
    (hint_strength : HintStrength) : ℕ × ℕ :=
  let far : ℕ × ℕ :=
    match hint_strength with
    | .strong => (1, min 50 n_others)
    | .soft =>
      if 50 > n_others then (1, min 20 n_others) else (50, min 100 n_others)
  let near : ℕ → ℕ × ℕ := fun b =>
    let best := min b n_others
    if best ≤ 1 then (1, min 5 n_others)
    else
      match hint_strength with
      | .strong => (1, best - 1)
      | .soft => (max 1 (best - max 5 (best / 2)), best - 1)
  let lh :=
    match best_rank_overall with
    | none => far
    | some b => if b > 100 then far else near b
  let low_rank := max 1 (min lh.1 n_others)
  let high_rank := max 1 (min lh.2 n_others)
  if low_rank > high_rank then (1, min 20 n_others) else (low_rank, high_rank)

/-- The duplicated `_choose_hint_index` band logic in
`backend/actions/similar_word.py` (identical strategy, slightly different
phrasing of the far soft branch). -/
def chooseHintBandSW (n_others : ℕ) (best_rank_overall : Option ℕ)
    (hint_strength : HintStrength) : ℕ × ℕ :=
  let far : ℕ × ℕ :=
    match hint_strength with
    | .strong => (1, min 50 n_others)
    | .soft =>
      let lh := (50, min 100 n_others)
      if lh.1 > n_others then (1, min 20 n_others) else lh
  let near : ℕ → ℕ × ℕ := fun b =>
    let best := min b n_others
    if best ≤ 1 then (1, min 5 n_others)
    else
      match hint_strength with
      | .strong => (1, best - 1)
      | .soft => (max 1 (best - max 5 (best / 2)), best - 1)
  let lh :=
    match best_rank_overall with
    | none => far
    | some b => if b > 100 then far else near b
  let low_rank := max 1 (min lh.1 n_others)
  let high_rank := max 1 (min lh.2 n_others)
  if low_rank > high_rank then (1, min 20 n_others) else (low_rank, high_rank)

/-- `get_similar_word` in `backend/actions/similar_word.py`. `pick` injects
the randomness: the chosen 0-based index is `(low_rank - 1) + pick`, with
`pick` clamped to `high_rank - low_rank` so that the index stays inside the
range of `random.randint(low_rank - 1, high_rank - 1)`; the clamp is the
identity on every value `randint` can actually return. -/
def getSimilarWord (lst : List (String × ℚ)) (total : ℕ)
    (best_rank_overall : Option ℕ) (hint_strength : HintStrength)
    (pick : ℕ) : Except String HintInfo :=
  if lst.isEmpty then .error "No similarity data for this target."
  else
    let band := chooseHintBandSW lst.length best_rank_overall hint_strength
    let idx := band.1 - 1 + min pick (band.2 - band.1)
    let ws := lst.getD idx ("", 0)
    .ok { word := ws.1, rank := idx + 1, total := total,
          similarity := ws.2,
          percentile := computePercentile (idx + 1) total,
          hotness := describeHotnessPercentile (idx + 1) total }

/-! ## Game Session state

Modelled from the spec: the Game Session object that owns
`best_rank_overall` and `hint_count` is referenced by the repository
(`backend/routes/similar_word.py` calls `engine.get_similar_word`, and
`backend/utils/hint.py` imports `HintStrength` from `backend.schemas`)
but its definition is not under `src/`; only the strategist functions it
calls are. The definitions below follow spec §3 "Session State", §4.3
step 8 and §4.4 "Side effects". -/

/-- Modelled from the spec: session-scoped counters, reset on target change. -/
structure SessionState where
  best_rank_overall : Option ℕ
  hint_count : ℕ
deriving DecidableEq

/-- Modelled from the spec: `best_rank_overall = min(current, rank)`,
treating "unset" as plus infinity. -/
def updateBestRank (cur : Option ℕ) (rank : ℕ) : ℕ :=
  match cur with
  | none => rank
  | some b => min b rank

/-- Modelled from the spec: the session state installed on every target
change (`best_rank_overall = unset`, `hint_count = 0`). -/
def freshSession : SessionState :=
  { best_rank_overall := none, hint_count := 0 }

/-- Modelled from the spec: a guess operation dispatched through the Game
Session; any valid, ranked outcome updates `best_rank_overall`. -/
def guessWithSession (st : WordGameEngine) (sess : SessionState) (g : String) :
    GuessResult × SessionState :=
  let res := makeGuess st g
  if res.valid then
    match res.rank with
    | some r =>
      (res, { sess with best_rank_overall := some (updateBestRank sess.best_rank_overall r) })
    | none => (res, sess)
  else (res, sess)

/-- Modelled from the spec: a hint dispatched through the Game Session; it
serves `get_similar_word`, increments `hint_count`, and updates
`best_rank_overall` with the hint's rank exactly as a guess would. -/
def hintWithSession (st : WordGameEngine) (sess : SessionState)
    (hint_strength : HintStrength) (pick : ℕ) :
    Except String (HintInfo × SessionState) :=
  match getSimilarWord st.target_similarity_list st.target_total
      sess.best_rank_overall hint_strength pick with
  | .error e => .error e
  | .ok info =>
    .ok (info, { best_rank_overall := some (updateBestRank sess.best_rank_overall info.rank),
                 hint_count := sess.hint_count + 1 })

/-- Modelled from the spec: re-targeting through the Game Session resets the
session state. -/
def retargetWithSession (vocab : List String) (index : List (String × String))
    (w : String) : Except String (WordGameEngine × SessionState) :=
  match setTargetRequested vocab index w with
  | .error e => .error e
  | .ok st => .ok (st, freshSession)

/-! ## Auxiliary definitions used by the verification -/

/-- Join token strings with a separator character (the inverse of
`splitOnChar`, used to state what row parsing does to a token list). -/
def intercalateChar (c : Char) : List (List Char) → List Char
  | [] => []
  | [t] => t
  | t :: t2 :: ts => t ++ c :: intercalateChar c (t2 :: ts)

/-- Consistency of the target-derived fields established by `set_target`:
`target_total` counts the row plus the target itself, and `target_pos_map`
is the last-occurrence index of each row word. -/
def targetInvariant (st : WordGameEngine) : Prop :=
  st.target_total = st.target_similarity_list.length + 1
  ∧ 1 ≤ st.target_total
  ∧ (∀ w i, st.target_pos_map w = some i →
      ∃ h : i < st.target_similarity_list.length,
        (st.target_similarity_list.get ⟨i, h⟩).1 = w
        ∧ ∀ j (hj : j < st.target_similarity_list.length),
            (st.target_similarity_list.get ⟨j, hj⟩).1 = w → j ≤ i)
  ∧ ∀ p ∈ st.target_similarity_list, (st.target_pos_map p.1).isSome

/-- A small concrete engine used for witness instantiations: target `dog`,
row `cat:0.8,wolf:0.77`; `owl` is in the vocabulary and the similarity
index but absent from the target's row. -/
def sampleEngine : WordGameEngine :=
  materializeTarget ["dog", "cat", "owl"]
    [("dog", "dog\tcat:0.8,wolf:0.77"), ("cat", "cat\tdog:0.8"), ("owl", "owl\tcat:0.5")]
    "dog" "dog\tcat:0.8,wolf:0.77"

/-! ## Lemmas about the derived position map -/

theorem buildPosMapAux_none (k : ℕ) (lst : List (String × ℚ)) (w : String)
    (h : buildPosMapAux k lst w = none) : ∀ p ∈ lst, p.1 ≠ w := by
  induction lst generalizing k with
  | nil => intro p hp; cases hp
  | cons q rest ih =>
    intro p hp
    unfold buildPosMapAux at h
    cases hrec : buildPosMapAux (k + 1) rest w with
    | some j => rw [hrec] at h; cases h
    | none =>
      rw [hrec] at h
      rcases List.mem_cons.mp hp with rfl | hp'
      · intro hw
        rw [if_pos hw] at h
        cases h
      · exact ih (k + 1) hrec p hp'

theorem buildPosMapAux_some (k : ℕ) (lst : List (String × ℚ)) (w : String) (i : ℕ)
    (h : buildPosMapAux k lst w = some i) :
    ∃ d, ∃ hd : d < lst.length, i = k + d ∧ (lst.get ⟨d, hd⟩).1 = w
      ∧ ∀ j (hj : j < lst.length), (lst.get ⟨j, hj⟩).1 = w → j ≤ d := by
  induction lst generalizing k with
  | nil => cases h
  | cons q rest ih =>
    unfold buildPosMapAux at h
    cases hrec : buildPosMapAux (k + 1) rest w with
    | some j =>
      rw [hrec] at h
      obtain rfl : j = i := by cases h; rfl
      obtain ⟨d, hd, hkd, hw, hmax⟩ := ih (k + 1) hrec
      refine ⟨d + 1, Nat.succ_lt_succ hd, by omega, hw, ?_⟩
      intro j hj hwj
      cases j with
      | zero => omega
      | succ j' =>
        have hj' : j' < rest.length := Nat.lt_of_succ_lt_succ hj
        have := hmax j' hj' hwj
        omega
    | none =>
      rw [hrec] at h
      by_cases hqw : q.1 = w
      · rw [if_pos hqw] at h
        obtain rfl : k = i := by cases h; rfl
        refine ⟨0, Nat.succ_pos _, by omega, hqw, ?_⟩
        intro j hj hwj
        cases j with
        | zero => omega
        | succ j' =>
          have hj' : j' < rest.length := Nat.lt_of_succ_lt_succ hj
          exact absurd hwj
            (buildPosMapAux_none (k + 1) rest w hrec (rest.get ⟨j', hj'⟩)
              (rest.get_mem _ _))
      · rw [if_neg hqw] at h
        cases h

theorem buildPosMapAux_isSome_of_mem (k : ℕ) (lst : List (String × ℚ)) (w : String)
    (p : String × ℚ) (hp : p ∈ lst) (hw : p.1 = w) :
    (buildPosMapAux k lst w).isSome := by
  induction lst generalizing k with
  | nil => cases hp
  | cons q rest ih =>
    unfold buildPosMapAux
    cases hrec : buildPosMapAux (k + 1) rest w with
    | some j => simp
    | none =>
      rcases List.mem_cons.mp hp with rfl | hp'
      · rw [if_pos hw]; simp
      · have := ih (k + 1) hp'
        rw [hrec] at this
        cases this

theorem buildPosMap_eq_none (lst : List (String × ℚ)) (w : String)
    (h : ∀ p ∈ lst, p.1 ≠ w) : buildPosMap lst w = none := by
  cases hb : buildPosMap lst w with
  | none => rfl
  | some i =>
    obtain ⟨d, hd, _, hw, _⟩ := buildPosMapAux_some 0 lst w i hb
    exact absurd hw (h (lst.get ⟨d, hd⟩) (lst.get_mem _ _))

theorem scanForWord_none (lst : List (String × ℚ)) (w : String) (j : ℕ)
    (h : ∀ p ∈ lst, p.1 ≠ w) : scanForWord lst w j = none := by
  induction lst generalizing j with
  | nil => rfl
  | cons q rest ih =>
    unfold scanForWord
    rw [if_neg (h q (List.mem_cons_self _ _))]
    exact ih (j + 1) (fun p hp => h p (List.mem_cons_of_mem _ hp))

theorem materializeTarget_invariant (vocab : List String)
    (index : List (String × String)) (chosen line : String) :
    targetInvariant (materializeTarget vocab index chosen line) := by
  unfold targetInvariant materializeTarget
  refine ⟨rfl, Nat.le_add_left 1 _, ?_, ?_⟩
  · intro w i h
    obtain ⟨d, hd, hkd, hw, hmax⟩ := buildPosMapAux_some 0 _ w i h
    obtain rfl : i = d := by omega
    exact ⟨hd, hw, hmax⟩
  · intro p hp
    exact buildPosMapAux_isSome_of_mem 0 _ _ p hp rfl

/-! ## Claim theorems -/

/-- C10: after every successful `set_target` (requested or random), the
engine satisfies `target_total = len(target_similarity_list) + 1 ≥ 1`,
every key of `target_pos_map` maps to an in-range index whose entry carries
that word — the index of the last occurrence when the word repeats — and
every word of the row is a key of the map. `make_guess` and `get_hint`
write no engine field, so the invariant is preserved by them. -/
theorem setTarget_establishes_invariant :
    (∀ vocab index w st, setTargetRequested vocab index w = Except.ok st → targetInvariant st)
    ∧ (∀ vocab index choice, targetInvariant (setTargetRandom vocab index choice))
    ∧ (∀ st g, (makeGuessS st g).2 = st)
    ∧ ∀ st pick top_n, (getHintS st pick top_n).2 = st := by
  refine ⟨?_, ?_, fun st g => rfl, fun st pick top_n => rfl⟩
  · intro vocab index w st h
    simp only [setTargetRequested] at h
    cases hl : index.lookup (normalizeWord w) with
    | none => rw [hl] at h; cases h
    | some line =>
      rw [hl] at h
      obtain rfl : materializeTarget vocab index (normalizeWord w) line = st := by
        cases h; rfl
      exact materializeTarget_invariant _ _ _ _
  · intro vocab index choice
    exact materializeTarget_invariant _ _ _ _

/-- Witness for C10 at a concrete successful `set_target`. -/
theorem setTarget_establishes_invariant_witness :
    targetInvariant (materializeTarget ["dog"] [("dog", "dog\tcat:0.8")] "dog" "dog\tcat:0.8") :=
  setTarget_establishes_invariant.1 ["dog"] [("dog", "dog\tcat:0.8")] "dog" _ rfl

/-- C9: `set_target` with a requested word normalises it (trim, lowercase),
fails exactly when the normalised word has no entry in the similarity
index, and otherwise deterministically selects that word and materialises
the row stored at its indexed offset. -/
theorem setTargetRequested_spec (vocab : List String)
    (index : List (String × String)) (w : String) :
    ((∃ e, setTargetRequested vocab index w = Except.error e)
      ↔ index.lookup (normalizeWord w) = none)
    ∧ (index.lookup (normalizeWord w) = none →
        setTargetRequested vocab index w =
          Except.error ("Requested target not in similarity data: " ++ normalizeWord w))
    ∧ ∀ line, index.lookup (normalizeWord w) = some line →
        setTargetRequested vocab index w
            = Except.ok (materializeTarget vocab index (normalizeWord w) line)
          ∧ (materializeTarget vocab index (normalizeWord w) line).target_word
              = normalizeWord w
          ∧ (materializeTarget vocab index (normalizeWord w) line).target_similarity_list
              = readSimilarityRow line := by
  cases hl : index.lookup (normalizeWord w) with
  | none => simp [setTargetRequested, hl]
  | some line => simp [setTargetRequested, hl, materializeTarget]

/-- Witness for C9 at a concrete requested target. -/
theorem setTargetRequested_spec_witness :
    ∃ st, setTargetRequested ["dog"] [("dog", "dog\tcat:0.8")] " DOG " = Except.ok st
      ∧ st.target_word = "dog" ∧ st.target_similarity_list = [("cat", 4 / 5)] := by
  have h := (setTargetRequested_spec ["dog"] [("dog", "dog\tcat:0.8")] " DOG ").2.2
    "dog\tcat:0.8" (by decide)
  refine ⟨_, h.1, ?_, ?_⟩
  · rw [h.2.1]; decide
  · rw [h.2.2]
    simp +decide [readSimilarityRow, readSimilarityRowChars, rstripNewlines, breakAtFirstChar, splitOnChar,
      splitOnCharAux, parseToken, parseFloatQ, stripChars, parseExponent, parseNatDigits,
      parseSignedInt, digitsVal]
    norm_num

/-- C3 counterexample: the claim states that a randomly selected target is
accepted only when its parsed similarity row is non-empty (otherwise the
attempt is retried and eventually `NoValidTargetError` is raised). In the
code, `set_target` samples `random.choice(available)` exactly once and
accepts it unconditionally: with the index `[("a", "a\t")]` the sampled
word `a` has an empty row, yet it is installed as target with
`target_total = 1` and no error. -/
theorem setTargetRandom_accepts_empty_row_cex :
    (setTargetRandom [] [("a", "a\t")] 0).target_word = "a"
    ∧ (setTargetRandom [] [("a", "a\t")] 0).target_similarity_list = []
    ∧ (setTargetRandom [] [("a", "a\t")] 0).target_total = 1 :=
  ⟨rfl, rfl, rfl⟩

/-- C3 (amended): `set_target` without a requested word picks a single
uniformly random candidate from the index and accepts it unconditionally —
it installs that word as target and materialises the row stored at its
indexed offset, with `target_total = len(row) + 1`, even when the row is
empty; there is no retry loop, no attempt budget, and no
`NoValidTargetError`. -/
theorem setTargetRandom_single_pick (vocab : List String)
    (index : List (String × String)) (choice : ℕ) (h : choice < index.length)
    (line : String)
    (hline : index.lookup (index.get ⟨choice, h⟩).1 = some line) :
    (setTargetRandom vocab index choice).target_word = (index.get ⟨choice, h⟩).1
    ∧ (setTargetRandom vocab index choice).target_similarity_list = readSimilarityRow line
    ∧ (setTargetRandom vocab index choice).target_total = (readSimilarityRow line).length + 1 := by
  have hg : index.getD choice ("", "") = index.get ⟨choice, h⟩ := by
    rw [List.getD_eq_getElem?_getD, List.getElem?_eq_getElem h]
    rfl
  simp only [setTargetRandom, hg, hline, Option.getD_some]
  exact ⟨rfl, rfl, rfl⟩

/-- Witness for C3's amended theorem at a concrete index. -/
theorem setTargetRandom_single_pick_witness :
    (setTargetRandom [] [("b", "b\tc:0.7")] 0).target_word
        = (([("b", "b\tc:0.7")] : List (String × String)).get ⟨0, by norm_num⟩).1
    ∧ (setTargetRandom [] [("b", "b\tc:0.7")] 0).target_similarity_list
        = readSimilarityRow "b\tc:0.7"
    ∧ (setTargetRandom [] [("b", "b\tc:0.7")] 0).target_total
        = (readSimilarityRow "b\tc:0.7").length + 1 :=
  setTargetRandom_single_pick [] [("b", "b\tc:0.7")] 0 (by norm_num) "b\tc:0.7" (by decide)

/-- C1: when the normalised guess equals the current target word, which is
present in the vocabulary set and in the similarity index (as every word
selected from the index is, and index keys are non-empty by construction of
`_build_line_index`), `make_guess` returns exactly `valid=true`,
`is_correct=true`, `rank=1`, `similarity=1.0`, `percentile=100.0`,
`hotness="Correct"` and `total = target_total`. -/
theorem makeGuess_exact_match_correct (st : WordGameEngine) (g : String)
    (hnorm : normalizeWord g = st.target_word)
    (hvocab : st.vocab_set.contains st.target_word = true)
    (hidx : (st.offsets.lookup st.target_word).isSome)
    (hne : st.target_word ≠ "") :
    makeGuess st g =
      { guess := st.target_word, valid := true, error := none, is_correct := some true,
        rank := some 1, total := some st.target_total, similarity := some 1,
        percentile := some 100, hotness := some "Correct" } := by
  have hidx' : (st.offsets.lookup st.target_word).isNone = false := by
    rcases Option.isSome_iff_exists.mp hidx with ⟨v, hv⟩
    rw [hv]
    rfl
  have h99 : describeHotness 1 = "Correct" := by norm_num [describeHotness]
  unfold makeGuess makeGuessNorm
  rw [hnorm, if_neg hne, hvocab]
  simp [hidx', correctResult, h99]

/-- Witness for C1 on `sampleEngine` with the denormalised guess `" DOG "`. -/
theorem makeGuess_exact_match_correct_witness :
    makeGuess sampleEngine " DOG " =
      { guess := sampleEngine.target_word, valid := true, error := none,
        is_correct := some true, rank := some 1, total := some sampleEngine.target_total,
        similarity := some 1, percentile := some 100, hotness := some "Correct" } :=
  makeGuess_exact_match_correct sampleEngine " DOG " (by decide) (by decide) (by decide)
    (by decide)

/-- C2: a valid non-target guess found at 0-based index `i` of the target's
row gets `rank = i + 1` and
`percentile = 100 * (1 - (rank - 1) / max(1, target_total - 1))`; for a
fixed target the percentile of rank 1 is 100 and the percentile strictly
decreases as the rank increases. -/
theorem guess_rank_and_percentile (st : WordGameEngine) (g : String) (i : ℕ)
    (hne : normalizeWord g ≠ "")
    (hvocab : st.vocab_set.contains (normalizeWord g) = true)
    (hidx : (st.offsets.lookup (normalizeWord g)).isSome)
    (hnt : normalizeWord g ≠ st.target_word)
    (hpm : st.target_pos_map (normalizeWord g) = some i) :
    ((makeGuess st g).rank = some (i + 1)
      ∧ (makeGuess st g).percentile = some (computePercentile (i + 1) st.target_total))
    ∧ (∀ total r1 r2, r1 < r2 → computePercentile r2 total < computePercentile r1 total)
    ∧ ∀ total, computePercentile 1 total = 100 := by
  refine ⟨?_, ?_, ?_⟩
  · have hidx' : (st.offsets.lookup (normalizeWord g)).isNone = false := by
      rcases Option.isSome_iff_exists.mp hidx with ⟨v, hv⟩
      rw [hv]
      rfl
    unfold makeGuess makeGuessNorm
    rw [if_neg hne, hvocab]
    simp only [Bool.true_eq_false, if_false, hidx', if_neg hnt, hpm, rankedResult]
    exact ⟨rfl, rfl⟩
  · intro total r1 r2 h
    have hD : (0 : ℚ) < ((max 1 (total - 1) : ℕ) : ℚ) := by
      have h1 : 1 ≤ max 1 (total - 1) := le_max_left _ _
      exact_mod_cast Nat.lt_of_lt_of_le Nat.zero_lt_one h1
    unfold computePercentile
    rw [mul_lt_mul_left (by norm_num : (0 : ℚ) < 100), sub_lt_sub_iff_left,
      div_lt_div_iff_of_pos_right hD, sub_lt_sub_iff_right]
    exact_mod_cast h
  · intro total
    unfold computePercentile
    norm_num

/-- Witness for C2: `cat` sits at index 0 of `sampleEngine`'s target row. -/
theorem guess_rank_and_percentile_witness :
    ((makeGuess sampleEngine "cat").rank = some (0 + 1)
      ∧ (makeGuess sampleEngine "cat").percentile
          = some (computePercentile (0 + 1) sampleEngine.target_total))
    ∧ (∀ total r1 r2, r1 < r2 → computePercentile r2 total < computePercentile r1 total)
    ∧ ∀ total, computePercentile 1 total = 100 :=
  guess_rank_and_percentile sampleEngine "cat" 0 (by decide) (by decide) (by decide)
    (by decide) (by decide)

/-- C6: `make_guess` is total (every branch of the embedding returns a
result record, never an exception) and produces, in this order of checks on
the trimmed-and-lowercased guess: error `"Empty guess."` for an empty
normalised guess, `"Word is not in the allowed vocabulary."` for a word
outside the vocabulary, `"Word is missing from similarity data."` for a
word with no similarity-index entry, and — for a guess passing all three
checks that is neither the target nor present in the target's materialised
row — a soft `valid=false` internal-error result. -/
theorem makeGuess_error_handling (st : WordGameEngine) (g : String) :
    (normalizeWord g = "" →
      makeGuess st g = invalidResult (normalizeWord g) "Empty guess.")
    ∧ (normalizeWord g ≠ "" →
        st.vocab_set.contains (normalizeWord g) = false →
        makeGuess st g = invalidResult (normalizeWord g)
          "Word is not in the allowed vocabulary.")
    ∧ (normalizeWord g ≠ "" →
        st.vocab_set.contains (normalizeWord g) = true →
        st.offsets.lookup (normalizeWord g) = none →
        makeGuess st g = invalidResult (normalizeWord g)
          "Word is missing from similarity data.")
    ∧ (normalizeWord g ≠ "" →
        st.vocab_set.contains (normalizeWord g) = true →
        (st.offsets.lookup (normalizeWord g)).isSome →
        normalizeWord g ≠ st.target_word →
        st.target_pos_map = buildPosMap st.target_similarity_list →
        (∀ p ∈ st.target_similarity_list, p.1 ≠ normalizeWord g) →
        makeGuess st g = invalidResult (normalizeWord g)
          "Internal error: guess not found in target similarity list.") := by
  refine ⟨?_, ?_, ?_, ?_⟩
  · intro h1
    unfold makeGuess makeGuessNorm
    rw [if_pos h1]
  · intro h1 h2
    unfold makeGuess makeGuessNorm
    rw [if_neg h1, if_pos h2]
  · intro h1 h2 h3
    unfold makeGuess makeGuessNorm
    rw [if_neg h1, h2]
    simp only [Bool.true_eq_false, if_false, h3, Option.isNone_none, if_true]
  · intro h1 h2 h3 h4 hpm hrow
    have hidx' : (st.offsets.lookup (normalizeWord g)).isNone = false := by
      rcases Option.isSome_iff_exists.mp h3 with ⟨v, hv⟩
      rw [hv]
      rfl
    have hmap : st.target_pos_map (normalizeWord g) = none := by
      rw [hpm]
      exact buildPosMap_eq_none _ _ hrow
    have hscan : scanForWord st.target_similarity_list (normalizeWord g) 0 = none :=
      scanForWord_none _ _ _ hrow
    unfold makeGuess makeGuessNorm
    rw [if_neg h1, h2]
    simp [hidx', if_neg h4, hmap, hscan]

/-- Witness for C6: on `sampleEngine`, the empty guess, the out-of-vocabulary
guess `zebra`, and the in-vocabulary, indexed, but not-in-row guess `owl`. -/
theorem makeGuess_error_handling_witness :
    makeGuess sampleEngine "  " = invalidResult (normalizeWord "  ") "Empty guess."
    ∧ makeGuess sampleEngine "zebra"
        = invalidResult (normalizeWord "zebra") "Word is not in the allowed vocabulary."
    ∧ makeGuess sampleEngine "owl"
        = invalidResult (normalizeWord "owl")
            "Internal error: guess not found in target similarity list." :=
  ⟨(makeGuess_error_handling sampleEngine "  ").1 (by decide),
   (makeGuess_error_handling sampleEngine "zebra").2.1 (by decide) (by decide),
   (makeGuess_error_handling sampleEngine "owl").2.2.2 (by decide) (by decide) (by decide)
     (by decide) rfl (by decide)⟩

/-- C5: the hotness label returned for every guess (`make_guess`) and every
hint (`get_hint`) is the similarity-threshold banding of
`_describe_hotness`, with fixed ordered thresholds evaluated top-down,
first match wins: `≥0.99` Correct, `≥0.90` Boiling, `≥0.75` Very hot,
`≥0.60` Hot, `≥0.45` Warm, `≥0.30` Cool, `≥0.15` Cold, else Freezing. -/
theorem hotness_banding_live_paths (s : ℚ) (st : WordGameEngine) (g : String)
    (pick top_n : ℕ) :
    ((s ≥ 0.99 → describeHotness s = "Correct")
      ∧ (s ≥ 0.90 → s < 0.99 → describeHotness s = "Boiling")
      ∧ (s ≥ 0.75 → s < 0.90 → describeHotness s = "Very hot")
      ∧ (s ≥ 0.60 → s < 0.75 → describeHotness s = "Hot")
      ∧ (s ≥ 0.45 → s < 0.60 → describeHotness s = "Warm")
      ∧ (s ≥ 0.30 → s < 0.45 → describeHotness s = "Cool")
      ∧ (s ≥ 0.15 → s < 0.30 → describeHotness s = "Cold")
      ∧ (s < 0.15 → describeHotness s = "Freezing"))
    ∧ ((makeGuess st g).valid = true →
        (makeGuess st g).hotness
          = some (describeHotness (((makeGuess st g).similarity).getD 0)))
    ∧ ∀ info, getHint st pick top_n = Except.ok info →
        info.hotness = describeHotness info.similarity := by
  refine ⟨?_, ?_, ?_⟩
  · unfold describeHotness
    refine ⟨fun h1 => if_pos h1, ?_, ?_, ?_, ?_, ?_, ?_, ?_⟩ <;>
      · intros
        split_ifs <;> first | rfl | linarith
  · unfold makeGuess makeGuessNorm
    split_ifs
    · simp [invalidResult]
    · simp [invalidResult]
    · simp [invalidResult]
    · simp [correctResult]
    · cases hm : st.target_pos_map (normalizeWord g) with
      | some idx => simp [rankedResult]
      | none =>
        cases hs : scanForWord st.target_similarity_list (normalizeWord g) 0 with
        | some js =>
          obtain ⟨j, sc⟩ := js
          simp [rankedResult]
        | none => simp [invalidResult]
  · intro info h
    unfold getHint at h
    split_ifs at h
    cases h
    rfl

/-- Witness for C5: the `Warm` band at `s = 1/2`, and `make_guess` on a
concrete valid guess. -/
theorem hotness_banding_live_paths_witness :
    describeHotness (1 / 2) = "Warm"
    ∧ (makeGuess sampleEngine "cat").hotness
        = some (describeHotness (((makeGuess sampleEngine "cat").similarity).getD 0)) :=
  ⟨(hotness_banding_live_paths (1 / 2) sampleEngine "cat" 0 10).1.2.2.2.2.1
      (by norm_num) (by norm_num),
   (hotness_banding_live_paths (1 / 2) sampleEngine "cat" 0 10).2.1 (by decide)⟩

/-- C8: for every `n_others ≥ 1`, every `best_rank_overall` and both hint
strengths, any rank drawn from the band resolved by `_choose_hint_index`
lies in `[1, n_others]`; and when `best_rank_overall` is set, `≤ 100` and
`> 1`, a strong hint's rank is strictly below `best_rank_overall`. The
duplicated band logic in `actions/similar_word.py` agrees with the one in
`utils/hint.py`. -/
theorem chooseHintBand_sound (n : ℕ) (hn : 1 ≤ n) (b? : Option ℕ)
    (s : HintStrength) (r : ℕ)
    (hlo : (chooseHintBand n b? s).1 ≤ r) (hhi : r ≤ (chooseHintBand n b? s).2) :
    (1 ≤ r ∧ r ≤ n)
    ∧ (∀ b, b? = some b → b ≤ 100 → 1 < b → s = HintStrength.strong → r < b)
    ∧ chooseHintBandSW n b? s = chooseHintBand n b? s := by
  have hsw : chooseHintBandSW n b? s = chooseHintBand n b? s := by
    rcases b? with _ | b <;> cases s <;> rfl
  refine ⟨?_, ?_, hsw⟩
  · rcases b? with _ | b <;> cases s <;>
      simp only [chooseHintBand] at hlo hhi <;>
      split_ifs at hlo hhi <;> dsimp only at hlo hhi <;> omega
  · rintro b rfl h100 h1 rfl
    simp only [chooseHintBand] at hlo hhi
    split_ifs at hlo hhi <;> dsimp only at hlo hhi <;> omega

/-- Witness for C8: `n_others = 5`, `best_rank_overall = 3`, strong hint,
rank 1. -/
theorem chooseHintBand_sound_witness :
    ((1 ≤ 1 ∧ 1 ≤ 5)
      ∧ (∀ b, (some 3 : Option ℕ) = some b → b ≤ 100 → 1 < b →
          HintStrength.strong = HintStrength.strong → 1 < b)
      ∧ chooseHintBandSW 5 (some 3) HintStrength.strong
          = chooseHintBand 5 (some 3) HintStrength.strong) :=
  chooseHintBand_sound 5 (by decide) (some 3) HintStrength.strong 1 (by decide) (by decide)

/-- C4 (spec-modelled Game Session): both session counters are reset to
unset/zero on every target change; every valid, ranked guess outcome
updates `best_rank_overall = min(current, rank)` with unset treated as
plus infinity (and leaves `hint_count` alone); every served hint increments
`hint_count` and updates `best_rank_overall` with the hint's rank exactly
as a guess would. -/
theorem session_state_semantics :
    (freshSession.best_rank_overall = none ∧ freshSession.hint_count = 0)
    ∧ (∀ vocab index w st sess,
        retargetWithSession vocab index w = Except.ok (st, sess) →
        sess.best_rank_overall = none ∧ sess.hint_count = 0)
    ∧ (∀ st sess g r, (makeGuess st g).valid = true → (makeGuess st g).rank = some r →
        (guessWithSession st sess g).2.best_rank_overall
            = some (updateBestRank sess.best_rank_overall r)
        ∧ (guessWithSession st sess g).2.hint_count = sess.hint_count)
    ∧ (∀ st sess s pick info sess2,
        hintWithSession st sess s pick = Except.ok (info, sess2) →
        sess2.hint_count = sess.hint_count + 1
        ∧ sess2.best_rank_overall = some (updateBestRank sess.best_rank_overall info.rank))
    ∧ (∀ r, updateBestRank none r = r)
    ∧ ∀ b r, updateBestRank (some b) r = min b r := by
  refine ⟨⟨rfl, rfl⟩, ?_, ?_, ?_, fun r => rfl, fun b r => rfl⟩
  · intro vocab index w st sess h
    unfold retargetWithSession at h
    cases hst : setTargetRequested vocab index w with
    | error e => rw [hst] at h; cases h
    | ok st' =>
      rw [hst] at h
      cases h
      exact ⟨rfl, rfl⟩
  · intro st sess g r hv hr
    simp [guessWithSession, hv, hr]
  · intro st sess s pick info sess2 h
    unfold hintWithSession at h
    cases hgs : getSimilarWord st.target_similarity_list st.target_total
        sess.best_rank_overall s pick with
    | error e => rw [hgs] at h; cases h
    | ok info' =>
      rw [hgs] at h
      cases h
      exact ⟨rfl, rfl⟩

/-- Witness for C4: a concrete guess and a concrete hint through the
session wrapper. -/
theorem session_state_semantics_witness :
    ((guessWithSession sampleEngine ⟨some 5, 2⟩ "cat").2.best_rank_overall
        = some (updateBestRank (some 5) 1)
      ∧ (guessWithSession sampleEngine ⟨some 5, 2⟩ "cat").2.hint_count = 2)
    ∧ ∀ info sess2,
        hintWithSession sampleEngine ⟨some 5, 2⟩ HintStrength.strong 0 = Except.ok (info, sess2) →
        sess2.hint_count = 2 + 1
        ∧ sess2.best_rank_overall = some (updateBestRank (some 5) info.rank) :=
  ⟨session_state_semantics.2.2.1 sampleEngine ⟨some 5, 2⟩ "cat" 1 (by decide) (by decide),
   fun info sess2 h =>
     session_state_semantics.2.2.2.1 sampleEngine ⟨some 5, 2⟩ HintStrength.strong 0
       info sess2 h⟩

/-! ## Lemmas about row tokenisation -/

theorem dropWhile_eq_self_of_none {p : Char → Bool} :
    ∀ l : List Char, (∀ c ∈ l, p c = false) → l.dropWhile p = l
  | [], _ => rfl
  | c :: cs, h => by
    rw [List.dropWhile_cons, if_neg (by simp [h c (List.mem_cons_self _ _)])]

theorem rstripNewlines_eq_self (cs : List Char) (h : ∀ c ∈ cs, c ≠ '\n') :
    rstripNewlines cs = cs := by
  unfold rstripNewlines
  rw [dropWhile_eq_self_of_none cs.reverse
    (fun c hc => by simp [h c (List.mem_reverse.mp hc)]), List.reverse_reverse]

theorem breakAtFirstChar_none (c : Char) :
    ∀ cs : List Char, c ∉ cs → breakAtFirstChar c cs = none
  | [], _ => rfl
  | x :: xs, h => by
    have hx : ¬ x = c := fun hx => h (by rw [← hx]; exact List.mem_cons_self _ _)
    have hrec := breakAtFirstChar_none c xs (fun hm => h (List.mem_cons_of_mem _ hm))
    simp only [breakAtFirstChar, if_neg hx, hrec]

theorem breakAtFirstChar_append (c : Char) :
    ∀ w rest : List Char, c ∉ w →
      breakAtFirstChar c (w ++ c :: rest) = some (w, rest)
  | [], rest, _ => by
    simp [breakAtFirstChar]
  | x :: w', rest, h => by
    have hx : ¬ x = c := fun hx => h (by rw [← hx]; exact List.mem_cons_self _ _)
    have hrec := breakAtFirstChar_append c w' rest (fun hm => h (List.mem_cons_of_mem _ hm))
    simp only [List.cons_append, breakAtFirstChar, if_neg hx, List.append_eq, hrec]

theorem splitOnCharAux_no_sep (c : Char) :
    ∀ (t cs acc : List Char), c ∉ t →
      splitOnCharAux c (t ++ cs) acc = splitOnCharAux c cs (t.reverse ++ acc)
  | [], cs, acc, _ => by simp
  | x :: t', cs, acc, h => by
    have hx : ¬ x = c := fun hx => h (by rw [← hx]; exact List.mem_cons_self _ _)
    have hrec := splitOnCharAux_no_sep c t' cs (x :: acc)
      (fun hm => h (List.mem_cons_of_mem _ hm))
    simp only [List.cons_append, splitOnCharAux, if_neg hx]
    simp
    exact hrec

theorem splitOnChar_intercalate (c : Char) :
    ∀ toks : List (List Char), toks ≠ [] → (∀ t ∈ toks, c ∉ t) →
      splitOnChar c (intercalateChar c toks) = toks
  | [], h, _ => absurd rfl h
  | [t], _, hf => by
    have h1 := splitOnCharAux_no_sep c t [] [] (hf t (List.mem_singleton.mpr rfl))
    unfold splitOnChar
    simp only [intercalateChar]
    calc splitOnCharAux c t [] = splitOnCharAux c (t ++ []) [] := by rw [List.append_nil]
      _ = splitOnCharAux c [] (t.reverse ++ []) := h1
      _ = [t] := by simp [splitOnCharAux]
  | t :: t2 :: ts, _, hf => by
    unfold splitOnChar
    simp only [intercalateChar]
    rw [splitOnCharAux_no_sep c t _ [] (hf t (List.mem_cons_self _ _))]
    simp only [splitOnCharAux, if_pos rfl]
    have hIH := splitOnChar_intercalate c (t2 :: ts) (by simp)
      (fun u hu => hf u (List.mem_cons_of_mem _ hu))
    unfold splitOnChar at hIH
    rw [hIH]
    simp

theorem intercalateChar_forall (P : Char → Prop) (c : Char) :
    ∀ toks : List (List Char), P c → (∀ t ∈ toks, ∀ x ∈ t, P x) →
      ∀ x ∈ intercalateChar c toks, P x
  | [], _, _ => by intro x hx; cases hx
  | [t], _, h => by
    intro x hx
    exact h t (List.mem_singleton.mpr rfl) x hx
  | t :: t2 :: ts, hc, h => by
    intro x hx
    unfold intercalateChar at hx
    rcases List.mem_append.mp hx with hx | hx
    · exact h t (List.mem_cons_self _ _) x hx
    · rcases List.mem_cons.mp hx with rfl | hx
      · exact hc
      · exact intercalateChar_forall P c (t2 :: ts) hc
          (fun u hu => h u (List.mem_cons_of_mem _ hu)) x hx

theorem intercalateChar_eq_nil (c : Char) :
    ∀ toks : List (List Char), toks ≠ [] → intercalateChar c toks = [] → toks = [[]]
  | [], h, _ => absurd rfl h
  | [t], _, he => by
    unfold intercalateChar at he
    rw [he]
  | t :: t2 :: ts, _, he => by
    unfold intercalateChar at he
    rcases List.append_eq_nil.mp he with ⟨-, h2⟩
    cases h2

/-- C7 counterexample: the claim says the token `"foo:bar:0.5"` is skipped
as malformed, so the row `w<TAB>good:0.9,foo:bar:0.5` would parse to just
`[("good", 0.9)]`. The code splits each token on the *last* colon, so
`foo:bar:0.5` parses successfully to the pair `("foo:bar", 0.5)` and is
kept. -/
theorem readSimilarityRow_keeps_last_colon_token_cex :
    readSimilarityRow "w\tgood:0.9,foo:bar:0.5"
      = [("good", 9 / 10), ("foo:bar", 1 / 2)] := by
  simp +decide [readSimilarityRow, readSimilarityRowChars, rstripNewlines, breakAtFirstChar, splitOnChar,
    splitOnCharAux, parseToken, parseFloatQ, stripChars, parseExponent, parseNatDigits,
    parseSignedInt, digitsVal]
  norm_num

/-- C7 (amended): `read_row` returns an empty list when the line has no
second tab-separated field or that field is empty; otherwise it splits the
field on commas, splits each token on the *last* colon into a word and a
score, and silently skips any token that fails to parse as `word:float`
(e.g. a colon-free token like `"foo"`) without raising and without
shortening the valid, well-formed portion of the row — but a token like
`"foo:bar:0.5"` parses successfully as `("foo:bar", 0.5)` under the
last-colon split and is kept, not skipped. -/
theorem readSimilarityRow_parsing :
    (∀ line, breakAtFirstChar '\t' (rstripNewlines line.data) = none →
      readSimilarityRow line = [])
    ∧ (∀ line l, breakAtFirstChar '\t' (rstripNewlines line.data) = some (l, []) →
        readSimilarityRow line = [])
    ∧ (∀ cs : List Char, ':' ∉ cs → parseToken cs = none)
    ∧ (∀ (w : List Char) (toks : List (List Char)), toks ≠ [] →
        '\t' ∉ w → (∀ x ∈ w, x ≠ '\n') →
        (∀ t ∈ toks, ',' ∉ t) → (∀ t ∈ toks, ∀ x ∈ t, x ≠ '\n') →
        readSimilarityRow (String.mk (w ++ '\t' :: intercalateChar ',' toks))
          = toks.filterMap parseToken)
    ∧ parseToken "foo".data = none
    ∧ parseToken "foo:bar:0.5".data = some ("foo:bar", 1 / 2) := by
  refine ⟨?_, ?_, ?_, ?_, ?_, ?_⟩
  · intro line h
    simp only [readSimilarityRow, readSimilarityRowChars]
    rw [h]
  · intro line l h
    simp only [readSimilarityRow, readSimilarityRowChars]
    rw [h]
    simp
  · intro cs h
    unfold parseToken
    rw [breakAtFirstChar_none ':' cs.reverse (fun hx => h (List.mem_reverse.mp hx))]
  · intro w toks hne hw hwn hcomma hnl
    have hmem : ∀ x ∈ w ++ '\t' :: intercalateChar ',' toks, x ≠ '\n' := by
      intro x hx
      rcases List.mem_append.mp hx with hx | hx
      · exact hwn x hx
      · rcases List.mem_cons.mp hx with rfl | hx
        · decide
        · exact intercalateChar_forall (fun y => y ≠ '\n') ',' toks (by decide) hnl x hx
    show readSimilarityRowChars (w ++ '\t' :: intercalateChar ',' toks)
      = toks.filterMap parseToken
    unfold readSimilarityRowChars
    rw [rstripNewlines_eq_self _ hmem, breakAtFirstChar_append '\t' w _ hw]
    dsimp only
    by_cases hI : intercalateChar ',' toks = []
    · rw [if_pos hI]
      obtain rfl : toks = [[]] := intercalateChar_eq_nil ',' toks hne hI
      simp [parseToken, breakAtFirstChar]
    · rw [if_neg hI, splitOnChar_intercalate ',' toks hne hcomma]
  · rfl
  · simp +decide [parseToken, breakAtFirstChar, parseFloatQ, stripChars, parseExponent,
      parseNatDigits, parseSignedInt, digitsVal]
    norm_num

/-- Witness for C7's amended theorem: a concrete line with one well-formed
and one colon-free token. -/
theorem readSimilarityRow_parsing_witness :
    readSimilarityRow
        (String.mk ("dog".data ++ '\t' :: intercalateChar ',' ["cat:0.8".data, "x".data]))
      = (["cat:0.8".data, "x".data] : List (List Char)).filterMap parseToken :=
  readSimilarityRow_parsing.2.2.2.1 "dog".data ["cat:0.8".data, "x".data]
    (by decide) (by decide) (by decide) (by decide) (by decide)

end WordHunt
